import Mathlib

/-!
Verification development for the request-binding and routing layer of
`flask_toolkits/routing.py` (the `APIRouter` class).

The Python source is shallowly embedded: Python dictionaries that are only
read by key are represented as functions `String → Option Value`; Python
values flowing through the binder are represented by the inductive `Value`;
code that can raise an exception is represented in the `Except String`
monad.  Components of the repository that are not part of `routing.py`
(the `BaseSchema` helper `get_non_exist_var_in_kwargs` and the pydantic
validation step) are modelled from the specification and are marked as such
in their doc comments.
-/

set_option maxHeartbeats 1000000

/-- Runtime values flowing through the binder.  `null` is Python `None`;
`enumV cls u` is a member of the enumerated type `cls` whose `.value`
attribute is `u`; `dict` is a plain Python `dict`; `model cls fields` is a
pydantic model instance of class `cls` whose `__dict__` holds `fields`;
`file` is an uploaded-file object (werkzeug `FileStorage`), represented by
its filename. -/
inductive Value where
  | null : Value
  | str (s : String) : Value
  | int (n : Int) : Value
  | enumV (cls : String) (underlying : Value) : Value
  | dict (entries : List (String × Value)) : Value
  | model (cls : String) (fields : List (String × Value)) : Value
  | file (filename : String) : Value
deriving Repr

/-- Type annotations as the router inspects them: a scalar class such as
`str`, an enumerated class, a pydantic `BaseModel` subclass, or a generic
alias such as `Optional[...]`/`List[...]` with its argument list. -/
inductive TypeAnnot where
  | scalar (name : String) : TypeAnnot
  | enumT (cls : String) : TypeAnnot
  | model (cls : String) : TypeAnnot
  | generic (args : List TypeAnnot) : TypeAnnot
deriving Repr

/-- Parameter source objects (`params.py` classes as used by `routing.py`):
each carries its optional alias; `body` additionally carries the declared
type (`dtype`) that `get_kwargs` unwraps looking for a nested pydantic
model. -/
inductive ParamObj where
  | path (aliasName : Option String) : ParamObj
  | query (aliasName : Option String) : ParamObj
  | header (aliasName : Option String) : ParamObj
  | body (aliasName : Option String) (dtype : TypeAnnot) : ParamObj
  | form (aliasName : Option String) : ParamObj
  | formURLEncoded (aliasName : Option String) : ParamObj
  | file (aliasName : Option String) : ParamObj
deriving Repr

/-- A Python dict read by key: `Option.none` means the key is absent. -/
abbrev KVf := String → Option Value

def kvEmpty : KVf := fun _ => Option.none

/-- Python `dict.update`: entries of `upd` win over entries of `base`. -/
def kvUpdate (base upd : KVf) : KVf := fun k =>
  match upd k with
  | some v => some v
  | Option.none => base k

/-- Python `d[k] = v`. -/
def kvSet (m : KVf) (k : String) (v : Value) : KVf := fun j =>
  if j = k then some v else m j

/-- First-match association-list lookup (Python dict built from unique keys). -/
def lookupStr {α : Type} : List (String × α) → String → Option α
  | [], _ => Option.none
  | (a, b) :: tl, k => if a = k then some b else lookupStr tl k

/-- The live request as the binder reads it: the matched method string,
query parameters (`request.args.to_dict()`), headers, form fields, uploaded
files (by filename) and the parsed JSON payload (`Option.none` when the
request carries no parseable JSON). -/
structure Request where
  method : String
  args : String → Option String
  headers : String → Option String
  form : String → Option String
  files : String → Option String
  json : Option Value

/-- The generated pydantic model for a route: its name and its declared
fields (binding key and declared type), in declaration order. -/
structure PModel where
  name : String
  fields : List (String × TypeAnnot)

/-- The per-route alias table (`get_params_aliases` output): one sub-mapping
per source kind from binding key to wire-visible name. -/
structure Aliases where
  path : List (String × String)
  header : List (String × String)
  query : List (String × String)
  body : List (String × String)
  form : List (String × String)
  file : List (String × String)

/-- Python `alias or key`: the alias when it is declared and non-empty
(a declared empty string is falsy in Python), else the binding key. -/
def aliasOr (a : Option String) (k : String) : String :=
  match a with
  | some s => if s = "" then k else s
  | Option.none => k

/-- `APIRouter.convert_alias_to_name` (routing.py 797-799): the list
comprehension `[aliases[key] for key in input_name if key in aliases]`. -/
def convert_alias_to_name (aliases : List (String × String)) (input_name : List String) :
    List String :=
  input_name.filterMap (fun key => lookupStr aliases key)

/-- `APIRouter.get_params_aliases` (routing.py 773-795): build the alias
table, one entry `key ↦ (alias or key)` per parameter, dispatched on the
parameter-object class (`Form` and `FormURLEncoded` share the form table). -/
def get_params_aliases (pp : List (String × ParamObj)) : Aliases :=
  pp.foldl
    (fun al kp =>
      match kp.2 with
      | ParamObj.path a => { al with path := al.path ++ [(kp.1, aliasOr a kp.1)] }
      | ParamObj.header a => { al with header := al.header ++ [(kp.1, aliasOr a kp.1)] }
      | ParamObj.query a => { al with query := al.query ++ [(kp.1, aliasOr a kp.1)] }
      | ParamObj.body a _ => { al with body := al.body ++ [(kp.1, aliasOr a kp.1)] }
      | ParamObj.form a => { al with form := al.form ++ [(kp.1, aliasOr a kp.1)] }
      | ParamObj.formURLEncoded a => { al with form := al.form ++ [(kp.1, aliasOr a kp.1)] }
      | ParamObj.file a => { al with file := al.file ++ [(kp.1, aliasOr a kp.1)] })
    ⟨[], [], [], [], [], []⟩

/-- `APIRouter.count_required_body` (routing.py 801-807): the number of
parameters whose parameter object is exactly of class `Body` (the Python
check is `type(po) == Body`, so `Form`/`File` objects never count). -/
def count_required_body : List (String × ParamObj) → Nat
  | [] => 0
  | (_, ParamObj.body _ _) :: tl => 1 + count_required_body tl
  | _ :: tl => count_required_body tl

/-- `APIRouter.get_pydantic_from_annots` (routing.py 654-663).  A pydantic
model class is returned directly (`BaseModel.__subclasscheck__` succeeds);
for a generic alias the Python `for` loop returns on its first iteration
with `b if b else annot`, so the first argument is unwrapped recursively
and, failing that, the generic alias object itself is returned; any other
class yields Python `None`. -/
def get_pydantic_from_annots : TypeAnnot → Option TypeAnnot
  | TypeAnnot.model c => some (TypeAnnot.model c)
  | TypeAnnot.generic [] => Option.none
  | TypeAnnot.generic (a :: rest) =>
      match get_pydantic_from_annots a with
      | some b => some b
      | Option.none => some (TypeAnnot.generic (a :: rest))
  | _ => Option.none

mutual
/-- `APIRouter.fill_all_enum_value` (routing.py 566-577): recursively walk
values whose exact type is `dict`, replace enum members by their `.value`,
and return anything else unchanged (the Python `try`/`except` returns the
input on any failure, so the function is total). -/
def fill_all_enum_value : Value → Value
  | Value.dict entries => Value.dict (fill_all_enum_entries entries)
  | Value.enumV _ u => u
  | v => v

def fill_all_enum_entries : List (String × Value) → List (String × Value)
  | [] => []
  | (k, v) :: tl => (k, fill_all_enum_value v) :: fill_all_enum_entries tl
end

/-- `BaseModel.__subclasscheck__(b)` at routing.py line 751: `True` for a
pydantic model class, `False` for an ordinary class, and a raised
`TypeError` when `b` is a generic alias object (not a class) — the call at
line 751 is not wrapped in `try`. -/
def bsubclass_check : TypeAnnot → Except String Bool
  | TypeAnnot.model _ => Except.ok true
  | TypeAnnot.generic _ => Except.error "TypeError: issubclass arg 1 must be a class"
  | _ => Except.ok false

def nameOfAnnot : TypeAnnot → String
  | TypeAnnot.scalar s => s
  | TypeAnnot.enumT c => c
  | TypeAnnot.model c => c
  | TypeAnnot.generic _ => "generic"

/-- `request.json.get(ak, None)`: requires the payload to be a JSON object
(otherwise Python raises, e.g. `AttributeError` on `None`), and returns the
member at `ak` or `None`. -/
def json_get (j : Option Value) (ak : String) : Except String Value :=
  match j with
  | some (Value.dict kvs) => Except.ok ((lookupStr kvs ak).getD Value.null)
  | _ => Except.error "AttributeError: json payload is not an object"

/-- `b(**v)` for a pydantic model class `b`: the keyword-splat requires a
mapping (a `TypeError` is raised on `None` or a scalar); the resulting
model instance is built from the mapping's entries.  The pydantic
validation of those entries is external library code and is abstracted as
succeeding. -/
def py_model_init (cls : String) (v : Value) : Except String Value :=
  match v with
  | Value.dict kvs => Except.ok (Value.model cls kvs)
  | _ => Except.error "TypeError: argument after ** must be a mapping"

/-- `b(**request.json)`: as `py_model_init`, reading the whole payload. -/
def py_model_init_json (cls : String) (j : Option Value) : Except String Value :=
  match j with
  | some (Value.dict kvs) => Except.ok (Value.model cls kvs)
  | _ => Except.error "TypeError: argument after ** must be a mapping"

/-- The value assigned to one absent `Body` key by routing.py 745-759.
The source first sets `kwargs[k] = None` and then overwrites it on the
non-`GET` paths; since a raised exception discards the working set, this is
equivalently the single value computed here: `None` for `GET`, otherwise
the whole-payload or keyed-sub-object construction chosen by
`total_body == 1` and by whether the declared type unwraps to a pydantic
model. -/
def resolve_body_value (req : Request) (total_body : Nat) (ak : String)
    (dtype : TypeAnnot) : Except String Value :=
  if req.method = "GET" then Except.ok Value.null
  else
    match get_pydantic_from_annots dtype with
    | some b =>
        match bsubclass_check b with
        | Except.error e => Except.error e
        | Except.ok true =>
            if total_body = 1 then py_model_init_json (nameOfAnnot b) req.json
            else
              match json_get req.json ak with
              | Except.error e => Except.error e
              | Except.ok sub => py_model_init (nameOfAnnot b) sub
        | Except.ok false => json_get req.json ak
    | Option.none => json_get req.json ak

/-- One iteration of the `for k in empty_keys` loop of routing.py 740-759:
keys that are not in `paired_params`, or whose parameter object is not
exactly of class `Body`, are skipped; a `Body` key is assigned its resolved
value. -/
def resolve_body_key (req : Request) (total_body : Nat)
    (pp : List (String × ParamObj)) (kw : KVf) (k : String) : Except String KVf :=
  match lookupStr pp k with
  | some (ParamObj.body aliasName dtype) =>
      (resolve_body_value req total_body (aliasOr aliasName k) dtype).map
        (fun v => kvSet kw k v)
  | _ => Except.ok kw

/-- Modelled from the spec: `BaseSchema.get_non_exist_var_in_kwargs`
(defined in `schemas.py`, which is not under `src/`) — spec section 4.5
step 5: "Determine, from the schema, which declared binding keys are still
absent from the working set after steps 1-4". -/
def get_non_exist_var_in_kwargs (model : PModel) (kwargs : KVf) : List String :=
  (model.fields.map Prod.fst).filter (fun f => (kwargs f).isNone)

/-- The body-resolution block of `get_kwargs` (routing.py 737-759):
compute the absent keys and, when the signature declares at least one
`Body` parameter (`if total_body:`), run the resolution loop over them. -/
def resolveBodyStep (kwargs : KVf) (req : Request)
    (pp : List (String × ParamObj)) (model : PModel) : Except String KVf :=
  let empty_keys := get_non_exist_var_in_kwargs model kwargs
  let total_body := count_required_body pp
  if total_body = 0 then Except.ok kwargs
  else empty_keys.foldlM (fun kw k => resolve_body_key req total_body pp kw k) kwargs

/-- The query-merge step of `get_kwargs` (routing.py 719-721): the dict
comprehension iterates over the aliased names of the route's query
parameters, reads the query string at the aliased name, and stores the
value under that aliased name; then `kwargs.update(query_kwargs)`. -/
def queryStage (kwargs : KVf) (req : Request) (model : PModel) (al : Aliases) : KVf :=
  let fieldNames := model.fields.map Prod.fst
  let names := convert_alias_to_name al.query fieldNames
  kvUpdate kwargs (fun k => if k ∈ names then (req.args k).map Value.str else Option.none)

/-- The header-merge step of `get_kwargs` (routing.py 724-725): like the
query step, but a present-but-empty header is falsy and therefore skipped. -/
def headerStage (kwargs : KVf) (req : Request) (model : PModel) (al : Aliases) : KVf :=
  let fieldNames := model.fields.map Prod.fst
  let names := convert_alias_to_name al.header fieldNames
  kvUpdate kwargs (fun k =>
    if k ∈ names then
      match req.headers k with
      | some s => if s = "" then Option.none else some (Value.str s)
      | Option.none => Option.none
    else Option.none)

/-- Form extraction of `get_kwargs` (routing.py 729): a present-but-empty
form field is falsy and skipped; keys are the aliased names. -/
def formStage (req : Request) (model : PModel) (al : Aliases) : KVf :=
  let fieldNames := model.fields.map Prod.fst
  let names := convert_alias_to_name al.form fieldNames
  fun k =>
    if k ∈ names then
      match req.form k with
      | some s => if s = "" then Option.none else some (Value.str s)
      | Option.none => Option.none
    else Option.none

/-- File extraction of `get_kwargs` (routing.py 730): a `FileStorage` is
falsy when its filename is empty; keys are the aliased names. -/
def fileStage (req : Request) (model : PModel) (al : Aliases) : KVf :=
  let fieldNames := model.fields.map Prod.fst
  let names := convert_alias_to_name al.file fieldNames
  fun k =>
    if k ∈ names then
      match req.files k with
      | some nm => if nm = "" then Option.none else some (Value.file nm)
      | Option.none => Option.none
    else Option.none

/-- Steps 1-4 of `get_kwargs` (routing.py 714-735): seed from the matched
path values, merge query then header values; for a non-`GET` request the
working set is replaced by the form values overlaid with the `"__dummy"`
placeholders for each present file.  Returns the working set and the file
values kept aside for re-merging after validation. -/
def extractKwargs (paths : KVf) (req : Request) (model : PModel) (al : Aliases) :
    KVf × KVf :=
  let k1 := queryStage paths req model al
  let k2 := headerStage k1 req model al
  if req.method ≠ "GET" then
    let fm := formStage req model al
    let fl := fileStage req model al
    let dummy : KVf := fun k => if (fl k).isSome then some (Value.str "__dummy") else Option.none
    (kvUpdate fm dummy, fl)
  else (k2, kvEmpty)

/-- Modelled from the spec: the pydantic validation/coercion step
(`pydantic_model(**kwargs)` at routing.py 763; `BaseSchema` lives in
`schemas.py`, not under `src/`).  Spec section 4.5 step 6 validates the
working set against the schema and step 7 notes "the schema may have
produced type-rich objects", so a field declared with an enumerated type
validates to the enum member wrapping the supplied value; other fields are
carried through.  Validation failures are not modelled (no claim concerns
them). -/
def coerceVal : TypeAnnot → Value → Value
  | TypeAnnot.enumT _, Value.null => Value.null
  | TypeAnnot.enumT cls, v => Value.enumV cls v
  | _, v => v

/-- Modelled from the spec, with `coerceVal`: the validated model instance,
whose `__dict__` maps each declared field name to its validated value. -/
def pydanticValidate (model : PModel) (kwargs : KVf) : Value :=
  Value.model model.name
    (model.fields.map (fun p => (p.1, coerceVal p.2 ((kwargs p.1).getD Value.null))))

/-- Python `vars(...)` on a model instance: its `__dict__`, keyed by field
name. -/
def varsOf : Value → KVf
  | Value.model _ fs => fun k => lookupStr fs k
  | _ => fun _ => Option.none

/-- Steps 6-8 of `get_kwargs` (routing.py 762-769): validate, run
`fill_all_enum_value` on the model instance, take `vars`, and for a
non-`GET` request overwrite with the true file values. -/
def finalizeKwargs (kw fileKwargs : KVf) (req : Request) (model : PModel) : KVf :=
  let valid := pydanticValidate model kw
  let filled := fill_all_enum_value valid
  let m := varsOf filled
  if req.method ≠ "GET" then kvUpdate m fileKwargs else m

/-- `APIRouter.get_kwargs` (routing.py 704-771), the full binding pipeline
for one request. -/
def get_kwargs (paths : KVf) (req : Request) (pp : List (String × ParamObj))
    (model : PModel) (al : Aliases) : Except String KVf :=
  (resolveBodyStep (extractKwargs paths req model al).1 req pp model).map
    (fun kw => finalizeKwargs kw (extractKwargs paths req model al).2 req model)

/-- Left and right curly brace characters, used by the documentation-path
rewrite. -/
def lbrace : Char := Char.ofNat 123

def rbrace : Char := Char.ofNat 125

/-- Split a character list at the first occurrence of `c`, returning the
parts before and after it (the occurrence itself excluded). -/
def splitAtFirst (c : Char) : List Char → Option (List Char × List Char)
  | [] => Option.none
  | x :: xs =>
      if x = c then some ([], xs)
      else (splitAtFirst c xs).map (fun p => (x :: p.1, p.2))

/-- Split a character list at the last occurrence of `c`. -/
def splitAtLast (c : Char) (s : List Char) : Option (List Char × List Char) :=
  match splitAtFirst c s.reverse with
  | Option.none => Option.none
  | some p => some (p.2.reverse, p.1.reverse)

def countChar (c : Char) (l : List Char) : Nat :=
  (l.filter (fun x => x = c)).length

/-- Model of `re.findall(r"[<]{1}.*[>]{1}", rule)` on a newline-free rule.
The regex is greedy: a match starts at the first `<` and `.*` backtracks to
the last `>` of the remaining input, so the single match (when one exists)
spans from the first `<` to the last `>` of the rule, and no `>` remains
afterwards — hence `findall` yields at most one match. -/
def findGreedyMatch (s : List Char) : Option (List Char) :=
  match splitAtFirst '<' s with
  | Option.none => Option.none
  | some pre =>
      match splitAtLast '>' pre.2 with
      | Option.none => Option.none
      | some mid => some ('<' :: (mid.1 ++ ['>']))

/-- The colon-stripping applied to a completed placeholder body by
`validate_rule` (routing.py 693-694): when the collected text contains a
colon, keep only the part after the first colon. -/
def afterFirstColon : List Char → List Char
  | [] => []
  | c :: tl => if c = ':' then tl else afterFirstColon tl

def stripQualifier (inner : List Char) : List Char :=
  if ':' ∈ inner then afterFirstColon inner else inner

/-- One character of the rewriting scan of `validate_rule` (routing.py
685-702).  State: output accumulated so far, the `start_path` stack of
collected placeholder texts (most recent first), and the
`start_write_path` flag.  A `>` with an empty stack models the Python
`IndexError` from `start_path[-1]`. -/
def scanStep (st : List Char × List (List Char) × Bool) (c : Char) :
    Except String (List Char × List (List Char) × Bool) :=
  if c = '<' then Except.ok (st.1, [] :: st.2.1, true)
  else if c = '>' then
    match st.2.1 with
    | [] => Except.error "IndexError: list index out of range"
    | top :: rest =>
        let top' := stripQualifier top
        Except.ok (st.1 ++ ('<' :: (top' ++ ['>'])), top' :: rest, false)
  else if st.2.2 then
    match st.2.1 with
    | [] => Except.error "IndexError: list index out of range"
    | top :: rest => Except.ok (st.1, (top ++ [c]) :: rest, true)
  else Except.ok (st.1 ++ [c], st.2.1, st.2.2)

def validate_rule_scan (rule : List Char) : Except String (List Char) :=
  (rule.foldlM scanStep (([] : List Char), ([] : List (List Char)), false)).map
    (fun st => st.1)

/-- `APIRouter.validate_rule` (routing.py 680-702): assert that every
`findall` match of the greedy placeholder regex contains at most one colon
(a failure is the Python `AssertionError`), then rewrite the rule by the
character scan, stripping type qualifiers from placeholders. -/
def validate_rule (rule : List Char) : Except String (List Char) :=
  match findGreedyMatch rule with
  | some m =>
      if countChar ':' m ≤ 1 then validate_rule_scan rule
      else Except.error "AssertionError: Multiple type definition in path"
  | Option.none => validate_rule_scan rule

/-- One character of `APIRouter.validate_rule_for_swagger` (routing.py
665-678).  State: output so far and the `opening_found` flag.  A `<` seen
while no placeholder is open becomes a left brace; the next `>` becomes a
right brace; everything else is copied. -/
def swaggerStep (st : List Char × Bool) (c : Char) : List Char × Bool :=
  if st.2 = false ∧ c = '<' then (st.1 ++ [lbrace], true)
  else if st.2 = true ∧ c = '>' then (st.1 ++ [rbrace], false)
  else (st.1 ++ [c], st.2)

def validate_rule_for_swagger (rule : List Char) : List Char :=
  (rule.foldl swaggerStep ([], false)).1

/-- `APIRouter.check_params_in_path` (routing.py 809-818) counts the
non-overlapping matches of the literal pattern `<key>` scanning left to
right, exactly as `re.findall` does for a pattern with no regex
metacharacters (the claims restrict `key` to identifier characters). -/
def countPH (key : List Char) : List Char → Nat
  | [] => 0
  | c :: tl =>
      if List.isPrefixOf ('<' :: (key ++ ['>'])) (c :: tl) then
        1 + countPH key (List.drop (key.length + 1) tl)
      else countPH key tl
  termination_by s => s.length
  decreasing_by
  · simp only [List.length_cons, List.length_drop]
    omega
  · simp

/-- `APIRouter.check_params_in_path` (routing.py 809-818): exactly one
match returns `True`; more than one raises `SwaggerPathError`; zero returns
`False`. -/
def check_params_in_path (key path : String) : Except String Bool :=
  let n := countPH key.data path.data
  if n = 1 then Except.ok true
  else if 1 < n then
    Except.error ("Invalid path. multiple " ++ key ++ " appeared in : " ++ path)
  else Except.ok false

/-- `APIRouter.update_dependencies` (routing.py 820-823): append each
element of `stack` that is not already present to the dependency list. -/
def update_dependencies (deps stack : List Nat) : List Nat :=
  stack.foldl (fun acc s => if s ∈ acc then acc else acc ++ [s]) deps

/-- The dependency-merge loop of `APIRouter._get_func_signature`
(routing.py 640-645), at the level of binding-key domains: the resolved
signature dict starts from the handler's own keys and is `update`d with
each registered dependency's signature, so its key set is the union of the
handler's keys with every dependency's keys.  `depSig` gives each
dependency's signature keys. -/
def resolved_signature_keys (own : List String) (depSig : Nat → List String)
    (deps : List Nat) : List String :=
  own ++ (deps.map depSig).flatten

/-- A well-formed route-pattern segment: a literal character (not an angle
bracket) or a placeholder with the given inner text. -/
inductive Seg where
  | lit (c : Char) : Seg
  | ph (inner : List Char) : Seg
deriving Repr, DecidableEq

def renderSeg : Seg → List Char
  | Seg.lit c => [c]
  | Seg.ph inner => '<' :: (inner ++ ['>'])

def renderPat (p : List Seg) : List Char := (p.map renderSeg).flatten

/-- Well-formedness of a segment: literal characters and placeholder inner
texts contain no angle brackets. -/
def SegWF : Seg → Prop
  | Seg.lit c => c ≠ '<' ∧ c ≠ '>'
  | Seg.ph inner => ∀ c ∈ inner, c ≠ '<' ∧ c ≠ '>'

instance : DecidablePred SegWF := fun s =>
  match s with
  | Seg.lit _ => inferInstanceAs (Decidable (_ ∧ _))
  | Seg.ph _ => inferInstanceAs (Decidable (∀ c ∈ _, _ ∧ _))

/-- The number of `:`-separated type qualifiers inside one segment. -/
def phQualifiers : Seg → Nat
  | Seg.lit _ => 0
  | Seg.ph inner => countChar ':' inner

/-- The documentation-path transform exactly as the spec words it: each
placeholder `<name>` or `<type:name>` becomes the name wrapped in braces,
with the type prefix and the colon stripped, and every character outside
placeholders is unchanged. -/
def specDocPath (p : List Seg) : List Char :=
  (p.map (fun s =>
    match s with
    | Seg.lit c => [c]
    | Seg.ph inner => lbrace :: (stripQualifier inner ++ [rbrace]))).flatten

/-- The expected output of the `validate_rule` scan on a well-formed
pattern: placeholders keep their angle brackets but lose their type
qualifier. -/
def scanOut (p : List Seg) : List Char :=
  (p.map (fun s =>
    match s with
    | Seg.lit c => [c]
    | Seg.ph inner => '<' :: (stripQualifier inner ++ ['>']))).flatten

/-- The number of positions at which `pat` occurs in `s` (the claim-side
notion of "appears as a placeholder", counting every occurrence). -/
def occCount (pat s : List Char) : Nat :=
  List.countP (fun i => List.isPrefixOf pat (List.drop i s)) (List.range (s.length + 1))

def isDictV : Value → Bool
  | Value.dict _ => true
  | _ => false

def isEnumV : Value → Bool
  | Value.enumV _ _ => true
  | _ => false

/-- C9: the enum-normalization function is total (it is a total function of
its input by construction, mirroring the Python `try`/`except` that returns
the input on any failure) and is the identity on every input that is
neither a dict nor an enum member. -/
theorem claim9_fill_enum_identity (v : Value) (hd : isDictV v = false)
    (he : isEnumV v = false) : fill_all_enum_value v = v := by
  cases v with
  | dict entries => simp [isDictV] at hd
  | enumV c u => simp [isEnumV] at he
  | null => rfl
  | str s => rfl
  | int n => rfl
  | model c fs => rfl
  | file f => rfl

theorem claim9_witness :
    isDictV (Value.str "hello") = false ∧ isEnumV (Value.str "hello") = false ∧
      fill_all_enum_value (Value.str "hello") = Value.str "hello" :=
  ⟨rfl, rfl, claim9_fill_enum_identity (Value.str "hello") rfl rfl⟩

theorem ud_grows : ∀ (stack deps : List Nat), deps <+: update_dependencies deps stack
  | [], _ => List.prefix_refl _
  | s :: rest, deps => by
      have h1 : deps <+: (if s ∈ deps then deps else deps ++ [s]) := by
        by_cases hs : s ∈ deps
        · rw [if_pos hs]
        · rw [if_neg hs]; exact List.prefix_append _ _
      have h2 := ud_grows rest (if s ∈ deps then deps else deps ++ [s])
      exact h1.trans h2

theorem ud_nodup : ∀ (stack deps : List Nat), deps.Nodup →
    (update_dependencies deps stack).Nodup
  | [], _, h => h
  | s :: rest, deps, h => by
      apply ud_nodup rest
      show (if s ∈ deps then deps else deps ++ [s]).Nodup
      by_cases hs : s ∈ deps
      · rwa [if_pos hs]
      · rw [if_neg hs, List.nodup_append]
        exact ⟨h, List.nodup_singleton s,
          fun a ha hb => hs ((List.mem_singleton.mp hb) ▸ ha)⟩

theorem ud_mem_stack : ∀ (stack deps : List Nat) (s : Nat), s ∈ stack →
    s ∈ update_dependencies deps stack
  | s' :: rest, deps, s, hmem => by
      rcases List.mem_cons.mp hmem with heq | htl
      · subst heq
        have hstep : s ∈ (if s ∈ deps then deps else deps ++ [s]) := by
          by_cases hs : s ∈ deps
          · rwa [if_pos hs]
          · rw [if_neg hs]; exact List.mem_append_right _ (List.mem_singleton_self s)
        exact (ud_grows rest _).subset hstep
      · exact ud_mem_stack rest _ s htl

theorem ud_mem_src : ∀ (stack deps : List Nat) (x : Nat),
    x ∈ update_dependencies deps stack → x ∈ deps ∨ x ∈ stack
  | [], _, x, h => Or.inl h
  | s :: rest, deps, x, h => by
      rcases ud_mem_src rest _ x h with hstep | hrest
      · have hstep : x ∈ (if s ∈ deps then deps else deps ++ [s]) := hstep
        by_cases hs : s ∈ deps
        · rw [if_pos hs] at hstep; exact Or.inl hstep
        · rw [if_neg hs] at hstep
          rcases List.mem_append.mp hstep with hd | hsing
          · exact Or.inl hd
          · exact Or.inr (List.mem_cons.mpr (Or.inl (List.mem_singleton.mp hsing)))
      · exact Or.inr (List.mem_cons.mpr (Or.inr hrest))

/-- C10: the router's dependency list only grows.  `update_dependencies`
extends the list at the end only (the old list is a prefix of the new), it
never duplicates an entry, every new entry comes from the declared stack,
every declared dependency ends up in the list, and a dependency already in
the list contributes its signature keys to the resolved signature of every
route registered afterwards. -/
theorem claim10_dependencies_grow (deps stack : List Nat) (hnd : deps.Nodup)
    (own : List String) (depSig : Nat → List String) (d : Nat) (hd : d ∈ deps)
    (key : String) (hkey : key ∈ depSig d) :
    deps <+: update_dependencies deps stack
    ∧ (update_dependencies deps stack).Nodup
    ∧ (∀ x ∈ update_dependencies deps stack, x ∈ deps ∨ x ∈ stack)
    ∧ (∀ s ∈ stack, s ∈ update_dependencies deps stack)
    ∧ key ∈ resolved_signature_keys own depSig (update_dependencies deps stack) := by
  refine ⟨ud_grows stack deps, ud_nodup stack deps hnd,
    fun x hx => ud_mem_src stack deps x hx,
    fun s hs => ud_mem_stack stack deps s hs, ?_⟩
  have hdu : d ∈ update_dependencies deps stack := (ud_grows stack deps).subset hd
  exact List.mem_append_right _
    (List.mem_flatten.mpr ⟨depSig d, List.mem_map_of_mem depSig hdu, hkey⟩)

theorem claim10_witness :
    (update_dependencies [1] [2]).Nodup
    ∧ "u" ∈ resolved_signature_keys ["a"]
        (fun n => if n = 1 then ["u"] else ["v"]) (update_dependencies [1] [2]) :=
  ⟨(claim10_dependencies_grow [1] [2] (by simp) ["a"]
      (fun n => if n = 1 then ["u"] else ["v"]) 1 (by simp) "u" (by simp)).2.1,
   (claim10_dependencies_grow [1] [2] (by simp) ["a"]
      (fun n => if n = 1 then ["u"] else ["v"]) 1 (by simp) "u" (by simp)).2.2.2.2⟩

def claim2_model : PModel := ⟨"ColorSchema", [("color", TypeAnnot.enumT "Color")]⟩

def claim2_pp : List (String × ParamObj) := [("color", ParamObj.query Option.none)]

def claim2_al : Aliases := ⟨[], [], [("color", "color")], [], [], []⟩

def claim2_req : Request :=
  ⟨"GET", (fun k => if k = "color" then some "red" else Option.none),
    (fun _ => Option.none), (fun _ => Option.none), (fun _ => Option.none), Option.none⟩

/-- C2, failing run: on a GET route with one enum-typed query parameter the
binder hands the handler the enum member, not its underlying value, because
`fill_all_enum_value` is applied to the pydantic model instance (routing.py
764) — which is neither a dict nor an enum, so the call is the identity —
and `vars` is only taken afterwards (routing.py 765).  The third conjunct
shows the normalizer itself does strip enum members when it is given the
mapping, so the defect is the misapplication, not the function. -/
theorem claim2_enum_not_normalized :
    (get_kwargs kvEmpty claim2_req claim2_pp claim2_model claim2_al).map
        (fun f => f "color")
      = Except.ok (some (Value.enumV "Color" (Value.str "red")))
    ∧ Value.enumV "Color" (Value.str "red") ≠ Value.str "red"
    ∧ fill_all_enum_value (Value.dict [("color", Value.enumV "Color" (Value.str "red"))])
      = Value.dict [("color", Value.str "red")] :=
  ⟨rfl, fun h => Value.noConfusion h, rfl⟩

def claim7_paths : KVf := kvSet kvEmpty "x" (Value.str "p")

def claim7_model : PModel :=
  ⟨"S7", [("q", TypeAnnot.scalar "str"), ("r", TypeAnnot.scalar "str"),
    ("x", TypeAnnot.scalar "str")]⟩

def claim7_al : Aliases := ⟨[("x", "x")], [], [("q", "qq"), ("r", "x")], [], [], []⟩

def claim7_req : Request :=
  ⟨"GET",
    (fun k => if k = "qq" then some "v1" else if k = "x" then some "v2" else Option.none),
    (fun _ => Option.none), (fun _ => Option.none), (fun _ => Option.none), Option.none⟩

/-- C7, counterexample: binding key `q` is aliased to `qq`; the query value
is merged under the aliased name `qq`, not under the binding key `q`; and a
query parameter aliased to `x` overwrites the path-seeded value of `x`. -/
theorem claim7_counterexample :
    queryStage claim7_paths claim7_req claim7_model claim7_al "q" = Option.none
    ∧ queryStage claim7_paths claim7_req claim7_model claim7_al "qq"
        = some (Value.str "v1")
    ∧ claim7_paths "x" = some (Value.str "p")
    ∧ queryStage claim7_paths claim7_req claim7_model claim7_al "x"
        = some (Value.str "v2")
    ∧ some (Value.str "v2") ≠ some (Value.str "p") := by
  refine ⟨rfl, rfl, rfl, rfl, fun h => ?_⟩
  injection h with h1
  injection h1 with h2
  exact absurd h2 (by decide)

/-- C7, amended: the extracted query value is merged into the working set
under the aliased name (which equals the binding key exactly when no
distinct alias is declared), and the merge preserves every entry already
present whose key is not the aliased name of a query parameter that is
present in the query string. -/
theorem claim7_amended_query_merge (kw : KVf) (req : Request) (model : PModel)
    (al : Aliases) (k an : String)
    (halias : lookupStr al.query k = some an)
    (hk : k ∈ model.fields.map Prod.fst)
    (hq : (req.args an).isSome) :
    queryStage kw req model al an = (req.args an).map Value.str
    ∧ ∀ key, (key ∉ convert_alias_to_name al.query (model.fields.map Prod.fst)
        ∨ req.args key = Option.none) → queryStage kw req model al key = kw key := by
  have hmem : an ∈ convert_alias_to_name al.query (model.fields.map Prod.fst) :=
    List.mem_filterMap.mpr ⟨k, hk, halias⟩
  constructor
  · unfold queryStage
    simp only [kvUpdate]
    rw [if_pos hmem]
    cases hra : req.args an with
    | none => rw [hra] at hq; simp at hq
    | some s => simp
  · intro key hkey
    unfold queryStage
    simp only [kvUpdate]
    rcases hkey with hnm | hnone
    · rw [if_neg hnm]
    · by_cases hin : key ∈ convert_alias_to_name al.query (model.fields.map Prod.fst)
      · rw [if_pos hin, hnone]; rfl
      · rw [if_neg hin]

def claim7w_model : PModel := ⟨"S7w", [("page", TypeAnnot.scalar "int")]⟩

def claim7w_al : Aliases := ⟨[], [], [("page", "page")], [], [], []⟩

def claim7w_req : Request :=
  ⟨"GET", (fun k => if k = "page" then some "1" else Option.none),
    (fun _ => Option.none), (fun _ => Option.none), (fun _ => Option.none), Option.none⟩

theorem claim7_witness :
    queryStage kvEmpty claim7w_req claim7w_model claim7w_al "page"
      = some (Value.str "1")
    ∧ queryStage kvEmpty claim7w_req claim7w_model claim7w_al "zzz" = kvEmpty "zzz" := by
  have h := claim7_amended_query_merge kvEmpty claim7w_req claim7w_model claim7w_al
    "page" "page" rfl (by simp [claim7w_model]) rfl
  exact ⟨h.1, h.2 "zzz" (Or.inr rfl)⟩

theorem resolve_body_key_of_body (req : Request) (t : Nat)
    (pp : List (String × ParamObj)) (kw : KVf) (k : String) (a : Option String)
    (d : TypeAnnot) (hl : lookupStr pp k = some (ParamObj.body a d)) :
    resolve_body_key req t pp kw k =
      (resolve_body_value req t (aliasOr a k) d).map (fun v => kvSet kw k v) := by
  unfold resolve_body_key
  rw [hl]

theorem resolve_body_key_skip (req : Request) (t : Nat)
    (pp : List (String × ParamObj)) (kw : KVf) (j : String) (po : ParamObj)
    (hl : lookupStr pp j = some po)
    (hpo : ∀ a d, po ≠ ParamObj.body a d) :
    resolve_body_key req t pp kw j = Except.ok kw := by
  unfold resolve_body_key
  rw [hl]
  cases po with
  | body a d => exact absurd rfl (hpo a d)
  | path a => rfl
  | query a => rfl
  | header a => rfl
  | form a => rfl
  | formURLEncoded a => rfl
  | file a => rfl

theorem resolve_body_key_none (req : Request) (t : Nat)
    (pp : List (String × ParamObj)) (kw : KVf) (j : String)
    (hl : lookupStr pp j = Option.none) :
    resolve_body_key req t pp kw j = Except.ok kw := by
  unfold resolve_body_key
  rw [hl]

theorem resolve_body_key_ne (req : Request) (t : Nat)
    (pp : List (String × ParamObj)) (kw kw' : KVf) (j k : String) (hne : j ≠ k)
    (h : resolve_body_key req t pp kw j = Except.ok kw') : kw' k = kw k := by
  cases hl : lookupStr pp j with
  | none =>
      rw [resolve_body_key_none req t pp kw j hl] at h
      injection h with h
      rw [← h]
  | some po =>
      by_cases hb : ∃ a d, po = ParamObj.body a d
      · obtain ⟨a, d, rfl⟩ := hb
        rw [resolve_body_key_of_body req t pp kw j a d hl] at h
        cases hv : resolve_body_value req t (aliasOr a j) d with
        | error e => rw [hv] at h; simp [Except.map] at h
        | ok v =>
            rw [hv] at h
            simp only [Except.map] at h
            injection h with h
            rw [← h]
            simp only [kvSet]
            rw [if_neg (fun he : k = j => hne he.symm)]
      · rw [resolve_body_key_skip req t pp kw j po hl
          (fun a d hpo => hb ⟨a, d, hpo⟩)] at h
        injection h with h
        rw [← h]

theorem foldlM_rbk_preserve (req : Request) (t : Nat)
    (pp : List (String × ParamObj)) :
    ∀ (l : List String) (kw kw' : KVf) (k : String), k ∉ l →
      List.foldlM (fun kw k => resolve_body_key req t pp kw k) kw l = Except.ok kw' →
      kw' k = kw k
  | [], kw, kw', k, _, h => by
      simp only [List.foldlM] at h
      injection h with h
      rw [← h]
  | j :: tl, kw, kw', k, hmem, h => by
      simp only [List.foldlM] at h
      cases hj : resolve_body_key req t pp kw j with
      | error e => rw [hj] at h; simp [Bind.bind, Except.bind] at h
      | ok kw1 =>
          rw [hj] at h
          simp only [Bind.bind, Except.bind] at h
          have h1 := foldlM_rbk_preserve req t pp tl kw1 kw' k
            (fun hk => hmem (List.mem_cons_of_mem _ hk)) h
          rw [h1]
          exact resolve_body_key_ne req t pp kw kw1 j k
            (fun he => hmem (he ▸ List.mem_cons_self _ _)) hj

theorem count_body_pos : ∀ (pp : List (String × ParamObj)) (k : String)
    (a : Option String) (d : TypeAnnot),
    lookupStr pp k = some (ParamObj.body a d) → count_required_body pp ≠ 0
  | [], k, a, d, h => by simp [lookupStr] at h
  | (k1, po) :: tl, k, a, d, h => by
      by_cases he : k1 = k
      · subst he
        simp only [lookupStr, if_pos rfl] at h
        injection h with h
        rw [h]
        simp [count_required_body]
      · simp only [lookupStr, if_neg he] at h
        have := count_body_pos tl k a d h
        cases po <;> simp [count_required_body] <;> omega

/-- Central lemma for the body-resolution loop: if the signature binds `k`
to a `Body` parameter, `k` is a declared field that is absent from the
working set, and the per-key resolution yields `v`, then any successful run
of the whole loop maps `k` to `v`. -/
theorem resolveBodyStep_sets (req : Request) (pp : List (String × ParamObj))
    (model : PModel) (kw : KVf) (k : String) (a : Option String) (d : TypeAnnot)
    (v : Value)
    (hl : lookupStr pp k = some (ParamObj.body a d))
    (hv : resolve_body_value req (count_required_body pp) (aliasOr a k) d
      = Except.ok v)
    (hf : k ∈ model.fields.map Prod.fst)
    (habs : kw k = Option.none)
    (hnd : (model.fields.map Prod.fst).Nodup) :
    ∀ kw', resolveBodyStep kw req pp model = Except.ok kw' → kw' k = some v := by
  intro kw' h
  unfold resolveBodyStep at h
  rw [if_neg (count_body_pos pp k a d hl)] at h
  have hkl : k ∈ get_non_exist_var_in_kwargs model kw := by
    simp [get_non_exist_var_in_kwargs, List.mem_filter, hf, habs]
  have hndl : (get_non_exist_var_in_kwargs model kw).Nodup := hnd.filter _
  obtain ⟨s, t2, hst⟩ := List.mem_iff_append.mp hkl
  have hks : k ∉ s ∧ k ∉ t2 := by
    rw [hst] at hndl
    constructor
    · intro hk
      rcases (List.nodup_append.mp hndl).2.2 hk with h2
      exact h2 (List.mem_cons_self _ _)
    · exact ((List.nodup_cons.mp (List.nodup_append.mp hndl).2.1).1)
  rw [hst, List.foldlM_append] at h
  cases hs : List.foldlM (fun kw k => resolve_body_key req (count_required_body pp) pp kw k) kw s with
  | error e => rw [hs] at h; simp [Bind.bind, Except.bind] at h
  | ok kw1 =>
      rw [hs] at h
      simp only [Bind.bind, Except.bind] at h
      simp only [List.foldlM] at h
      rw [resolve_body_key_of_body req _ pp kw1 k a d hl, hv] at h
      simp only [Except.map, Bind.bind, Except.bind] at h
      have h2 := foldlM_rbk_preserve req (count_required_body pp) pp t2
        (kvSet kw1 k v) kw' k hks.2 h
      rw [h2]
      simp [kvSet]

theorem resolve_body_value_get (req : Request) (t : Nat) (ak : String)
    (d : TypeAnnot) (hm : req.method = "GET") :
    resolve_body_value req t ak d = Except.ok Value.null := by
  unfold resolve_body_value
  rw [if_pos hm]

theorem resolve_body_key_get_ok (req : Request) (t : Nat)
    (pp : List (String × ParamObj)) (hm : req.method = "GET") (kw : KVf)
    (k : String) : ∃ kw1, resolve_body_key req t pp kw k = Except.ok kw1 := by
  cases hl : lookupStr pp k with
  | none => exact ⟨kw, resolve_body_key_none req t pp kw k hl⟩
  | some po =>
      by_cases hb : ∃ a d, po = ParamObj.body a d
      · obtain ⟨a, d, rfl⟩ := hb
        refine ⟨kvSet kw k Value.null, ?_⟩
        rw [resolve_body_key_of_body req t pp kw k a d hl,
          resolve_body_value_get req t (aliasOr a k) d hm]
        rfl
      · exact ⟨kw, resolve_body_key_skip req t pp kw k po hl
          (fun a d hpo => hb ⟨a, d, hpo⟩)⟩

theorem foldlM_rbk_get_ok (req : Request) (t : Nat)
    (pp : List (String × ParamObj)) (hm : req.method = "GET") :
    ∀ (l : List String) (kw : KVf), ∃ kw',
      List.foldlM (fun kw k => resolve_body_key req t pp kw k) kw l = Except.ok kw'
  | [], kw => ⟨kw, rfl⟩
  | j :: tl, kw => by
      obtain ⟨kw1, h1⟩ := resolve_body_key_get_ok req t pp hm kw j
      obtain ⟨kw', h2⟩ := foldlM_rbk_get_ok req t pp hm tl kw1
      refine ⟨kw', ?_⟩
      simp only [List.foldlM]
      rw [h1]
      simpa [Bind.bind, Except.bind] using h2

/-- C5: for a GET request, a Body-typed binding key that is absent from the
working set resolves to Python `None` (the conclusion does not mention the
JSON payload, and the request — hence its payload — is universally
quantified); and when the handler declares no Body-typed parameter, the
whole binding pipeline is oblivious to the JSON payload: its result is the
same for any two payloads. -/
theorem claim5_get_body_null_and_json_unread (req : Request)
    (pp : List (String × ParamObj)) (model : PModel) (al : Aliases)
    (paths kw : KVf) (k : String) (a : Option String) (d : TypeAnnot)
    (hm : req.method = "GET") :
    (lookupStr pp k = some (ParamObj.body a d) →
      k ∈ model.fields.map Prod.fst → kw k = Option.none →
      (model.fields.map Prod.fst).Nodup →
      ∃ kw', resolveBodyStep kw req pp model = Except.ok kw'
        ∧ kw' k = some Value.null)
    ∧ (count_required_body pp = 0 → ∀ j1 j2 : Option Value,
        get_kwargs paths { req with json := j1 } pp model al
          = get_kwargs paths { req with json := j2 } pp model al) := by
  constructor
  · intro hl hf habs hnd
    have ht : count_required_body pp ≠ 0 := count_body_pos pp k a d hl
    obtain ⟨kw', hfold⟩ := foldlM_rbk_get_ok req (count_required_body pp) pp hm
      (get_non_exist_var_in_kwargs model kw) kw
    have hstep : resolveBodyStep kw req pp model = Except.ok kw' := by
      unfold resolveBodyStep
      rw [if_neg ht]
      exact hfold
    refine ⟨kw', hstep, ?_⟩
    exact resolveBodyStep_sets req pp model kw k a d Value.null hl
      (resolve_body_value_get req (count_required_body pp) (aliasOr a k) d hm)
      hf habs hnd kw' hstep
  · intro hc j1 j2
    have hstep : ∀ (j : Option Value) (kwx : KVf),
        resolveBodyStep kwx { req with json := j } pp model = Except.ok kwx := by
      intro j kwx
      unfold resolveBodyStep
      rw [if_pos hc]
    unfold get_kwargs
    simp only [hstep]
    rfl

def claim5_req : Request :=
  ⟨"GET", (fun _ => Option.none), (fun _ => Option.none), (fun _ => Option.none),
    (fun _ => Option.none), some (Value.dict [("junk", Value.int 1)])⟩

def claim5_pp : List (String × ParamObj) :=
  [("b1", ParamObj.body Option.none (TypeAnnot.model "M"))]

def claim5_model : PModel := ⟨"S5", [("b1", TypeAnnot.model "M")]⟩

def claim5_npp : List (String × ParamObj) := [("q1", ParamObj.query Option.none)]

def claim5_nmodel : PModel := ⟨"S5n", [("q1", TypeAnnot.scalar "str")]⟩

def claim5_nal : Aliases := ⟨[], [], [("q1", "q1")], [], [], []⟩

theorem claim5_witness :
    (resolveBodyStep kvEmpty claim5_req claim5_pp claim5_model).map (fun f => f "b1")
      = Except.ok (some Value.null)
    ∧ get_kwargs kvEmpty { claim5_req with json := some (Value.dict [("a", Value.int 2)]) }
          claim5_npp claim5_nmodel claim5_nal
        = get_kwargs kvEmpty { claim5_req with json := Option.none }
          claim5_npp claim5_nmodel claim5_nal := by
  constructor
  · obtain ⟨kw', hstep, hval⟩ :=
      (claim5_get_body_null_and_json_unread claim5_req claim5_pp claim5_model
        ⟨[], [], [], [], [], []⟩ kvEmpty kvEmpty "b1" Option.none (TypeAnnot.model "M")
        rfl).1 rfl (by simp [claim5_model]) rfl (by simp [claim5_model])
    rw [hstep]
    simp only [Except.map]
    rw [hval]
  · exact (claim5_get_body_null_and_json_unread claim5_req claim5_npp claim5_nmodel
      claim5_nal kvEmpty kvEmpty "b1" Option.none (TypeAnnot.model "M") rfl).2 rfl
      (some (Value.dict [("a", Value.int 2)])) Option.none

/-- C1: on a body-carrying request, for an absent Body-typed binding key
whose declared type unwraps to a pydantic model: with exactly one Body
parameter in the whole signature, the parameter is constructed from the
entire JSON payload; with two or more, it is constructed from the
sub-object found in the payload under its alias key (alias if declared,
else the binding key), each such key resolved independently (the
conclusion holds for every Body key separately, whatever the loop did for
the others). -/
theorem claim1_single_vs_multi_body (req : Request)
    (pp : List (String × ParamObj)) (model : PModel) (kw : KVf) (k : String)
    (a : Option String) (d : TypeAnnot) (m : String) (pl : List (String × Value))
    (hm : ¬ req.method = "GET")
    (hl : lookupStr pp k = some (ParamObj.body a d))
    (hun : get_pydantic_from_annots d = some (TypeAnnot.model m))
    (hj : req.json = some (Value.dict pl))
    (hf : k ∈ model.fields.map Prod.fst)
    (habs : kw k = Option.none)
    (hnd : (model.fields.map Prod.fst).Nodup) :
    (count_required_body pp = 1 →
      ∀ kw', resolveBodyStep kw req pp model = Except.ok kw' →
        kw' k = some (Value.model m pl))
    ∧ (2 ≤ count_required_body pp →
      ∀ skvs, lookupStr pl (aliasOr a k) = some (Value.dict skvs) →
      ∀ kw', resolveBodyStep kw req pp model = Except.ok kw' →
        kw' k = some (Value.model m skvs)) := by
  constructor
  · intro hc kw' h
    have hv : resolve_body_value req (count_required_body pp) (aliasOr a k) d
        = Except.ok (Value.model m pl) := by
      unfold resolve_body_value
      rw [if_neg hm, hun, hc]
      simp [bsubclass_check, py_model_init_json, hj, nameOfAnnot]
    exact resolveBodyStep_sets req pp model kw k a d (Value.model m pl)
      hl hv hf habs hnd kw' h
  · intro hc skvs hsub kw' h
    have hc1 : ¬ count_required_body pp = 1 := by omega
    have hv : resolve_body_value req (count_required_body pp) (aliasOr a k) d
        = Except.ok (Value.model m skvs) := by
      unfold resolve_body_value
      rw [if_neg hm, hun]
      simp only [bsubclass_check, if_pos rfl, if_neg hc1]
      simp [json_get, hj, hsub, py_model_init, nameOfAnnot]
    exact resolveBodyStep_sets req pp model kw k a d (Value.model m skvs)
      hl hv hf habs hnd kw' h

def claim1_req : Request :=
  ⟨"POST", (fun _ => Option.none), (fun _ => Option.none), (fun _ => Option.none),
    (fun _ => Option.none), some (Value.dict [("name", Value.str "a")])⟩

def claim1_pp : List (String × ParamObj) :=
  [("b", ParamObj.body Option.none (TypeAnnot.model "M"))]

def claim1_model : PModel := ⟨"S1", [("b", TypeAnnot.model "M")]⟩

theorem claim1_witness :
    (resolveBodyStep kvEmpty claim1_req claim1_pp claim1_model).map (fun f => f "b")
      = Except.ok (some (Value.model "M" [("name", Value.str "a")])) := by
  have hok : ∃ kwr, resolveBodyStep kvEmpty claim1_req claim1_pp claim1_model
      = Except.ok kwr := ⟨_, rfl⟩
  obtain ⟨kwr, hr⟩ := hok
  rw [hr]
  simp only [Except.map]
  have := (claim1_single_vs_multi_body claim1_req claim1_pp claim1_model kvEmpty "b"
    Option.none (TypeAnnot.model "M") "M" [("name", Value.str "a")]
    (by decide) rfl rfl rfl (by simp [claim1_model]) rfl
    (by simp [claim1_model])).1 rfl kwr hr
  rw [this]

def claim6_pp : List (String × ParamObj) := [("f", ParamObj.file (some "fa"))]

def claim6_model : PModel := ⟨"S6", [("f", TypeAnnot.scalar "Any")]⟩

def claim6_al : Aliases := ⟨[], [], [], [], [], [("f", "fa")]⟩

def claim6_req : Request :=
  ⟨"POST", (fun _ => Option.none), (fun _ => Option.none), (fun _ => Option.none),
    (fun k => if k = "fa" then some "data.txt" else Option.none), Option.none⟩

/-- C6, counterexample: the file parameter has binding key `f` and alias
`fa`.  During schema validation the binding key `f` is not represented by
the sentinel (it is absent; the sentinel sits under the alias `fa`), and
the value the handler receives for the binding key `f` is not the uploaded
file. -/
theorem claim6_counterexample :
    (extractKwargs kvEmpty claim6_req claim6_model claim6_al).1 "f" = Option.none
    ∧ (extractKwargs kvEmpty claim6_req claim6_model claim6_al).1 "fa"
        = some (Value.str "__dummy")
    ∧ (get_kwargs kvEmpty claim6_req claim6_pp claim6_model claim6_al).map
        (fun f => f "f") = Except.ok (some Value.null)
    ∧ some Value.null ≠ some (Value.file "data.txt") := by
  refine ⟨rfl, rfl, rfl, fun h => ?_⟩
  injection h with h1
  exact Value.noConfusion h1

/-- C6, amended: for every File-typed parameter whose aliased name (alias
if declared, else the binding key) has an uploaded file present, during
schema validation the aliased name is represented by the `"__dummy"`
sentinel instead of the file payload, and after validation the true
uploaded-file value overwrites that entry, so the final mapping holds the
literal uploaded-file object at the aliased name, never passed through
schema coercion.  When no distinct alias is declared the aliased name is
the binding key and the original claim holds. -/
theorem claim6_amended_file_sentinel (paths : KVf) (req : Request)
    (pp : List (String × ParamObj)) (model : PModel) (al : Aliases)
    (k an fname : String)
    (hm : ¬ req.method = "GET")
    (hal : lookupStr al.file k = some an)
    (hk : k ∈ model.fields.map Prod.fst)
    (hfile : req.files an = some fname)
    (hne : ¬ fname = "") :
    (extractKwargs paths req model al).1 an = some (Value.str "__dummy")
    ∧ (extractKwargs paths req model al).2 an = some (Value.file fname)
    ∧ ∀ res, get_kwargs paths req pp model al = Except.ok res →
        res an = some (Value.file fname) := by
  have hmem : an ∈ convert_alias_to_name al.file (model.fields.map Prod.fst) :=
    List.mem_filterMap.mpr ⟨k, hk, hal⟩
  have hfl : fileStage req model al an = some (Value.file fname) := by
    unfold fileStage
    rw [if_pos hmem, hfile]
    simp [hne]
  have hex : extractKwargs paths req model al =
      (kvUpdate (formStage req model al)
        (fun j => if (fileStage req model al j).isSome
          then some (Value.str "__dummy") else Option.none),
       fileStage req model al) := by
    unfold extractKwargs
    rw [if_pos hm]
  refine ⟨?_, ?_, ?_⟩
  · rw [hex]
    simp only [kvUpdate]
    rw [hfl]
    rfl
  · rw [hex]
    exact hfl
  · intro res h
    unfold get_kwargs at h
    cases hr : resolveBodyStep (extractKwargs paths req model al).1 req pp model with
    | error e => rw [hr] at h; simp [Except.map] at h
    | ok kwb =>
        rw [hr] at h
        simp only [Except.map] at h
        injection h with h
        rw [← h]
        unfold finalizeKwargs
        rw [if_pos hm]
        simp only [kvUpdate]
        rw [hex]
        simp only [hfl]

def claim6w_pp : List (String × ParamObj) := [("f", ParamObj.file Option.none)]

def claim6w_model : PModel := ⟨"S6w", [("f", TypeAnnot.scalar "Any")]⟩

def claim6w_al : Aliases := ⟨[], [], [], [], [], [("f", "f")]⟩

def claim6w_req : Request :=
  ⟨"POST", (fun _ => Option.none), (fun _ => Option.none), (fun _ => Option.none),
    (fun k => if k = "f" then some "a.txt" else Option.none), Option.none⟩

theorem claim6_witness :
    (extractKwargs kvEmpty claim6w_req claim6w_model claim6w_al).1 "f"
      = some (Value.str "__dummy")
    ∧ (get_kwargs kvEmpty claim6w_req claim6w_pp claim6w_model claim6w_al).map
        (fun f => f "f") = Except.ok (some (Value.file "a.txt")) := by
  have h := claim6_amended_file_sentinel kvEmpty claim6w_req claim6w_pp claim6w_model
    claim6w_al "f" "f" "a.txt" (by decide) rfl (by simp [claim6w_model]) rfl (by decide)
  refine ⟨h.1, ?_⟩
  have hok : ∃ res, get_kwargs kvEmpty claim6w_req claim6w_pp claim6w_model claim6w_al
      = Except.ok res := ⟨_, rfl⟩
  obtain ⟨res, hr⟩ := hok
  rw [hr]
  simp only [Except.map]
  rw [h.2.2 res hr]

theorem occCount_cons (pat : List Char) (c : Char) (tl : List Char) :
    occCount pat (c :: tl)
      = (if List.isPrefixOf pat (c :: tl) then 1 else 0) + occCount pat tl := by
  unfold occCount
  have h1 : (c :: tl).length + 1 = tl.length + 1 + 1 := by simp
  rw [h1, List.range_succ_eq_map, List.countP_cons, List.countP_map]
  have h2 : ((fun i => List.isPrefixOf pat (List.drop i (c :: tl))) ∘ Nat.succ)
      = (fun i => List.isPrefixOf pat (List.drop i tl)) := rfl
  rw [h2]
  exact Nat.add_comm _ _

theorem occCount_append_no_lt (ys : List Char) :
    ∀ (xs rest : List Char), '<' ∉ xs →
      occCount ('<' :: ys) (xs ++ rest) = occCount ('<' :: ys) rest
  | [], rest, _ => by simp
  | x :: xs, rest, hx => by
      have hx1 : ('<' == x) = false := by
        simp only [beq_eq_false_iff_ne]
        exact fun h => hx (by rw [h]; exact List.mem_cons_self _ _)
      have hpre : List.isPrefixOf ('<' :: ys) (x :: (xs ++ rest)) = false := by
        simp [List.isPrefixOf, hx1]
      rw [List.cons_append, occCount_cons, hpre]
      rw [occCount_append_no_lt ys xs rest (fun h => hx (List.mem_cons_of_mem _ h))]
      simp

/-- The scanning (non-overlapping) match count of `check_params_in_path`
agrees with the plain occurrence count whenever the key contains no `<`:
occurrences of `<key>` can then never overlap. -/
theorem countPH_eq (key : List Char) (hk : '<' ∉ key) :
    ∀ s : List Char, countPH key s = occCount ('<' :: (key ++ ['>'])) s
  | [] => by
      unfold countPH
      simp [occCount, List.isPrefixOf]
  | c :: tl => by
      unfold countPH
      by_cases h : List.isPrefixOf ('<' :: (key ++ ['>'])) (c :: tl) = true
      · rw [if_pos h, occCount_cons, if_pos h]
        have hpre : (key ++ ['>']).isPrefixOf tl = true := by
          simp only [List.isPrefixOf, Bool.and_eq_true] at h
          exact h.2
        obtain ⟨t, ht⟩ := List.isPrefixOf_iff_prefix.mp hpre
        have hdrop : List.drop (key.length + 1) tl = t := by
          rw [← ht]
          have hlen : key.length + 1 = (key ++ ['>']).length := by simp
          rw [hlen, List.drop_left]
        have htl : tl = (key ++ ['>']) ++ List.drop (key.length + 1) tl := by
          rw [hdrop]
          exact ht.symm
        have hno : '<' ∉ key ++ ['>'] := by
          intro hmem
          rcases List.mem_append.mp hmem with h1 | h2
          · exact hk h1
          · rw [List.mem_singleton] at h2
            exact absurd h2 (by decide)
        rw [countPH_eq key hk (List.drop (key.length + 1) tl)]
        conv_rhs => rw [htl]
        rw [occCount_append_no_lt (key ++ ['>']) (key ++ ['>'])
          (List.drop (key.length + 1) tl) hno]
      · rw [if_neg h, occCount_cons, if_neg h]
        rw [countPH_eq key hk tl]
        simp
  termination_by s => s.length
  decreasing_by
  · simp only [List.length_cons, List.length_drop]
    omega
  · simp

theorem ident_no_angle (key : String)
    (hk : ∀ c ∈ key.data, c.isAlphanum ∨ c = '_') : '<' ∉ key.data := by
  intro hmem
  rcases hk '<' hmem with h | h
  · exact absurd h (by decide)
  · exact absurd h (by decide)

/-- C4: for an identifier-shaped parameter name, the path-membership check
returns `True` exactly when `<name>` occurs once in the pattern, `False`
when it does not occur, and raises the path-configuration error when it
occurs more than once. -/
theorem claim4_check_params_in_path_spec (key path : String)
    (hk : ∀ c ∈ key.data, c.isAlphanum ∨ c = '_') :
    (occCount ('<' :: (key.data ++ ['>'])) path.data = 1 →
      check_params_in_path key path = Except.ok true)
    ∧ (occCount ('<' :: (key.data ++ ['>'])) path.data = 0 →
      check_params_in_path key path = Except.ok false)
    ∧ (1 < occCount ('<' :: (key.data ++ ['>'])) path.data →
      check_params_in_path key path
        = Except.error ("Invalid path. multiple " ++ key ++ " appeared in : " ++ path)) := by
  have heq := countPH_eq key.data (ident_no_angle key hk) path.data
  refine ⟨?_, ?_, ?_⟩ <;> intro h
  · unfold check_params_in_path
    rw [heq, h]
    rfl
  · unfold check_params_in_path
    rw [heq, h]
    rfl
  · unfold check_params_in_path
    rw [heq]
    rw [if_neg (by omega : ¬ occCount ('<' :: (key.data ++ ['>'])) path.data = 1)]
    rw [if_pos h]

theorem claim4_witness :
    occCount ('<' :: ("id".data ++ ['>'])) "/items/<id>".data = 1
    ∧ check_params_in_path "id" "/items/<id>" = Except.ok true := by
  refine ⟨by decide, ?_⟩
  exact (claim4_check_params_in_path_spec "id" "/items/<id>" (by decide)).1 (by decide)

theorem mem_afterFirstColon {c : Char} : ∀ (l : List Char), c ∈ afterFirstColon l → c ∈ l
  | [], h => h
  | x :: tl, h => by
      unfold afterFirstColon at h
      by_cases hx : x = ':'
      · rw [if_pos hx] at h
        exact List.mem_cons_of_mem _ h
      · rw [if_neg hx] at h
        exact List.mem_cons_of_mem _ (mem_afterFirstColon tl h)

theorem mem_stripQualifier {c : Char} (inner : List Char) :
    c ∈ stripQualifier inner → c ∈ inner := by
  unfold stripQualifier
  by_cases h : ':' ∈ inner
  · rw [if_pos h]
    exact mem_afterFirstColon inner
  · rw [if_neg h]
    exact id

theorem scan_inner : ∀ (inner : List Char) (out top : List Char)
    (stack : List (List Char)), (∀ c ∈ inner, ¬ c = '<' ∧ ¬ c = '>') →
    List.foldlM scanStep (out, top :: stack, true) inner
      = Except.ok (out, (top ++ inner) :: stack, true)
  | [], out, top, stack, _ => by simp [List.foldlM, Pure.pure, Except.pure]
  | c :: tl, out, top, stack, h => by
      obtain ⟨h1, h2⟩ := h c (List.mem_cons_self _ _)
      simp only [List.foldlM]
      have hstep : scanStep (out, top :: stack, true) c
          = Except.ok (out, (top ++ [c]) :: stack, true) := by
        unfold scanStep
        rw [if_neg h1, if_neg h2]
        rfl
      rw [hstep]
      simp only [Bind.bind, Except.bind]
      rw [scan_inner tl out (top ++ [c]) stack
        (fun c hc => h c (List.mem_cons_of_mem _ hc))]
      simp

theorem scan_pat : ∀ (p : List Seg) (out : List Char) (stack : List (List Char)),
    (∀ s ∈ p, SegWF s) →
    ∃ stack', List.foldlM scanStep (out, stack, false) (renderPat p)
      = Except.ok (out ++ scanOut p, stack', false)
  | [], out, stack, _ =>
      ⟨stack, by simp [renderPat, scanOut, List.foldlM, Pure.pure, Except.pure]⟩
  | Seg.lit c :: tl, out, stack, h => by
      obtain ⟨h1, h2⟩ := h _ (List.mem_cons_self _ _)
      have hr : renderPat (Seg.lit c :: tl) = c :: renderPat tl := by
        simp [renderPat, renderSeg]
      rw [hr]
      simp only [List.foldlM]
      have hstep : scanStep (out, stack, false) c
          = Except.ok (out ++ [c], stack, false) := by
        unfold scanStep
        rw [if_neg h1, if_neg h2]
        rfl
      rw [hstep]
      simp only [Bind.bind, Except.bind]
      obtain ⟨stack', hrec⟩ := scan_pat tl (out ++ [c]) stack
        (fun s hs => h s (List.mem_cons_of_mem _ hs))
      rw [hrec]
      refine ⟨stack', ?_⟩
      simp [scanOut]
  | Seg.ph inner :: tl, out, stack, h => by
      have hwf : ∀ c ∈ inner, ¬ c = '<' ∧ ¬ c = '>' := h _ (List.mem_cons_self _ _)
      have hr : renderPat (Seg.ph inner :: tl)
          = '<' :: ((inner ++ ['>']) ++ renderPat tl) := by
        simp [renderPat, renderSeg]
      rw [hr]
      simp only [List.foldlM]
      have hopen : scanStep (out, stack, false) '<'
          = Except.ok (out, [] :: stack, true) := by
        unfold scanStep
        rw [if_pos rfl]
      rw [hopen]
      simp only [Bind.bind, Except.bind]
      rw [show (inner ++ ['>']) ++ renderPat tl = inner ++ (['>'] ++ renderPat tl) from
        by simp]
      rw [List.foldlM_append]
      rw [scan_inner inner out [] stack hwf]
      simp only [Bind.bind, Except.bind, List.nil_append]
      rw [List.foldlM_append]
      simp only [List.foldlM]
      have hclose : scanStep (out, inner :: stack, true) '>'
          = Except.ok (out ++ '<' :: (stripQualifier inner ++ ['>']),
              stripQualifier inner :: stack, false) := by
        unfold scanStep
        rw [if_neg (by decide : ¬ '>' = '<'), if_pos rfl]
      rw [hclose]
      simp only [Bind.bind, Except.bind, Pure.pure, Except.pure]
      obtain ⟨stack', hrec⟩ := scan_pat tl
        (out ++ '<' :: (stripQualifier inner ++ ['>']))
        (stripQualifier inner :: stack)
        (fun s hs => h s (List.mem_cons_of_mem _ hs))
      rw [hrec]
      refine ⟨stack', ?_⟩
      simp [scanOut]

theorem validate_rule_scan_wf (p : List Seg) (h : ∀ s ∈ p, SegWF s) :
    validate_rule_scan (renderPat p) = Except.ok (scanOut p) := by
  unfold validate_rule_scan
  obtain ⟨stack', hs⟩ := scan_pat p [] [] h
  rw [hs]
  simp [Except.map]

theorem swag_inner : ∀ (n : List Char) (out : List Char),
    (∀ c ∈ n, ¬ c = '<' ∧ ¬ c = '>') →
    List.foldl swaggerStep (out, true) (n ++ ['>']) = (out ++ n ++ [rbrace], false)
  | [], out, _ => by
      simp only [List.nil_append, List.foldl]
      unfold swaggerStep
      rw [if_neg (fun hand => Bool.noConfusion hand.1), if_pos ⟨rfl, rfl⟩]
      simp
  | c :: tl, out, h => by
      obtain ⟨h1, h2⟩ := h c (List.mem_cons_self _ _)
      rw [show (c :: tl) ++ ['>'] = c :: (tl ++ ['>']) from rfl]
      simp only [List.foldl]
      have hstep : swaggerStep (out, true) c = (out ++ [c], true) := by
        unfold swaggerStep
        rw [if_neg (fun hand => Bool.noConfusion hand.1),
          if_neg (fun hand => h2 hand.2)]
      rw [hstep]
      rw [swag_inner tl (out ++ [c]) (fun c hc => h c (List.mem_cons_of_mem _ hc))]
      simp

theorem swag_pat : ∀ (p : List Seg) (out : List Char), (∀ s ∈ p, SegWF s) →
    List.foldl swaggerStep (out, false) (scanOut p) = (out ++ specDocPath p, false)
  | [], out, _ => by simp [scanOut, specDocPath]
  | Seg.lit c :: tl, out, h => by
      obtain ⟨h1, h2⟩ := h _ (List.mem_cons_self _ _)
      have hso : scanOut (Seg.lit c :: tl) = c :: scanOut tl := by simp [scanOut]
      rw [hso]
      simp only [List.foldl]
      have hstep : swaggerStep (out, false) c = (out ++ [c], false) := by
        unfold swaggerStep
        rw [if_neg (fun hand => h1 hand.2), if_neg (fun hand => Bool.noConfusion hand.1)]
      rw [hstep, swag_pat tl (out ++ [c]) (fun s hs => h s (List.mem_cons_of_mem _ hs))]
      simp [specDocPath]
  | Seg.ph inner :: tl, out, h => by
      have hwf : ∀ c ∈ inner, ¬ c = '<' ∧ ¬ c = '>' := h _ (List.mem_cons_self _ _)
      have hso : scanOut (Seg.ph inner :: tl)
          = '<' :: ((stripQualifier inner ++ ['>']) ++ scanOut tl) := by
        simp [scanOut]
      rw [hso]
      simp only [List.foldl]
      have hopen : swaggerStep (out, false) '<' = (out ++ [lbrace], true) := by
        unfold swaggerStep
        rw [if_pos ⟨rfl, rfl⟩]
      rw [hopen]
      rw [List.foldl_append]
      have hstrip : ∀ c ∈ stripQualifier inner, ¬ c = '<' ∧ ¬ c = '>' :=
        fun c hc => hwf c (mem_stripQualifier inner hc)
      rw [swag_inner (stripQualifier inner) (out ++ [lbrace]) hstrip]
      rw [swag_pat tl (out ++ [lbrace] ++ stripQualifier inner ++ [rbrace])
        (fun s hs => h s (List.mem_cons_of_mem _ hs))]
      simp [specDocPath]

/-- C8, amended: for every well-formed route pattern (literal characters
and properly bracketed placeholders whose inner text has no angle
brackets) that registration accepts, the documentation path equals the
spec transform: each placeholder becomes its name in braces with the type
qualifier stripped, and characters outside placeholders are unchanged. -/
theorem claim8_amended_doc_path (p : List Seg) (hwf : ∀ s ∈ p, SegWF s)
    (r : List Char) (hacc : validate_rule (renderPat p) = Except.ok r) :
    validate_rule_for_swagger r = specDocPath p := by
  have hscan := validate_rule_scan_wf p hwf
  have hr : r = scanOut p := by
    unfold validate_rule at hacc
    cases hg : findGreedyMatch (renderPat p) with
    | none =>
        rw [hg, hscan] at hacc
        injection hacc with h2
        exact h2.symm
    | some m =>
        rw [hg] at hacc
        have hacc2 : (if countChar ':' m ≤ 1 then validate_rule_scan (renderPat p)
            else Except.error "AssertionError: Multiple type definition in path")
            = Except.ok r := hacc
        by_cases hcc : countChar ':' m ≤ 1
        · rw [if_pos hcc, hscan] at hacc2
          injection hacc2 with h2
          exact h2.symm
        · rw [if_neg hcc] at hacc2
          exact Except.noConfusion hacc2
  rw [hr]
  unfold validate_rule_for_swagger
  rw [swag_pat p [] hwf]
  simp

theorem claim8_witness :
    validate_rule "/<int:x>".data = Except.ok "/<x>".data
    ∧ validate_rule_for_swagger "/<x>".data = ['/', lbrace, 'x', rbrace] := by
  refine ⟨rfl, ?_⟩
  have h := claim8_amended_doc_path [Seg.lit '/', Seg.ph "int:x".data]
    (by decide) "/<x>".data rfl
  exact h.trans rfl

/-- C8, counterexample: the pattern `/a<b>c>d` is accepted by registration
(the greedy colon check passes and the scan raises nothing), but the
resulting documentation path rewrites the stray `>` (a character outside
every placeholder) into a second brace pair instead of leaving it
unchanged, so the claimed transform (which would produce `/a` brace `b`
brace `c>d`) does not describe the code. -/
theorem claim8_counterexample :
    validate_rule "/a<b>c>d".data = Except.ok "/a<b>c<b>d".data
    ∧ validate_rule_for_swagger "/a<b>c<b>d".data
      = ['/', 'a', lbrace, 'b', rbrace, 'c', lbrace, 'b', rbrace, 'd']
    ∧ ['/', 'a', lbrace, 'b', rbrace, 'c', lbrace, 'b', rbrace, 'd']
      ≠ ['/', 'a', lbrace, 'b', rbrace, 'c', '>', 'd'] :=
  ⟨rfl, rfl, by decide⟩

/-- C3: the registration-time rule check rejects `/a/<int:x>/b/<int:y>`
even though each of its two placeholders carries exactly one `:` type
qualifier, because the greedy regex match spans from the first `<` to the
last `>` and therefore counts both colons in one match. -/
theorem claim3_greedy_regex_rejects_two_typed_placeholders :
    renderPat [Seg.lit '/', Seg.lit 'a', Seg.lit '/', Seg.ph "int:x".data,
        Seg.lit '/', Seg.lit 'b', Seg.lit '/', Seg.ph "int:y".data]
      = "/a/<int:x>/b/<int:y>".data
    ∧ phQualifiers (Seg.ph "int:x".data) = 1
    ∧ phQualifiers (Seg.ph "int:y".data) = 1
    ∧ findGreedyMatch "/a/<int:x>/b/<int:y>".data = some "<int:x>/b/<int:y>".data
    ∧ validate_rule "/a/<int:x>/b/<int:y>".data
      = Except.error "AssertionError: Multiple type definition in path" :=
  ⟨rfl, rfl, rfl, rfl, rfl⟩
